import Mathlib

/-!
# Verification of the expense-tracker aggregation and persistence layer

Shallow embedding of the repository code:

* aggregation functions of `src/tracker/models.py`
  (`sum_expenses_by_category`, `calculate_remaining_budget_by_category`,
  `sum_expenses`, `verify_expense_with_category`);
* persistence operations over the single Mongo collection of per-user
  ledger documents (`src/database.py`, `src/tracker/models.py`,
  `src/auth/models.py`, `src/utils.py`);
* the route-level logic for category deletion
  (`src/tracker/routes.py`) and registration (`src/auth/routes.py`).

Python `Decimal` values are modeled by `Rat` (exact decimal arithmetic);
a decimal string field is modeled by its numeric value, an absent
dictionary key by `none`.  Output strings (`str(remaining_budget)` and
the two-decimal percentage rendering of `calculate_remaining_budget_by_category`)
are modeled by the exact numeric values they print; the two-decimal
rounding of the percentage is presentation-layer formatting.
-/

namespace ExpenseTracker

/-! ## Dictionaries reaching the aggregation functions

The aggregation functions receive the raw embedded documents
(`list[dict]`), so a field can be absent; `.get` defaults are applied at
each use site exactly as in the source. -/

structure ExpenseDict where
  category_name : Option String
  amount : Option Rat
deriving DecidableEq

structure CategoryDict where
  name : String
  budget : Option Rat
deriving DecidableEq

/-- One element of the list returned by
`calculate_remaining_budget_by_category`:
`{'name': key, 'budget': str(remaining_budget), 'percentage_spent': f'...%'}`. -/
structure BudgetEntry where
  name : String
  budget : Rat
  percentage_spent : Rat
deriving DecidableEq

/-- `expense.get('category_name', 'Undefined category')`. -/
def expenseKey (e : ExpenseDict) : String :=
  e.category_name.getD "Undefined category"

/-- `Decimal(expense.get('amount', 0))`. -/
def expenseAmt (e : ExpenseDict) : Rat :=
  e.amount.getD 0

/-- Python `dict` / `defaultdict(Decimal)` with string keys and decimal
values: an insertion-ordered association list. -/
abbrev Dict := List (String × Rat)

/-- `d[k] += v` on a `defaultdict(Decimal)`: add to the existing entry,
or append a fresh key at the end (initial value `Decimal()`, i.e. 0). -/
def dictAdd : Dict → String → Rat → Dict
  | [], k, v => [(k, v)]
  | (k', v') :: rest, k, v =>
      if k' = k then (k', v' + v) :: rest else (k', v') :: dictAdd rest k v

/-- `d[k] = v` in a dict comprehension: overwrite the value in place
(the key keeps its first-insertion position), or append a fresh key. -/
def dictInsert : Dict → String → Rat → Dict
  | [], k, v => [(k, v)]
  | (k', v') :: rest, k, v =>
      if k' = k then (k', v) :: rest else (k', v') :: dictInsert rest k v

/-- `spent_budget[k]` on a `defaultdict(Decimal)`: an absent key reads 0. -/
def lookupD : Dict → String → Rat
  | [], _ => 0
  | (k', v') :: rest, k => if k' = k then v' else lookupD rest k

/-- The `spent_budget` accumulation loop shared by
`sum_expenses_by_category` and `calculate_remaining_budget_by_category`:
`for expense in expense_list: spent_budget[key] += Decimal(expense.get('amount', 0))`. -/
def spentDict (l : List ExpenseDict) : Dict :=
  l.foldl (fun d e => dictAdd d (expenseKey e) (expenseAmt e)) []

/-- The `budget` dict of `calculate_remaining_budget_by_category`:
`{category.get('name'): Decimal(category.get('budget', 0)) for category in category_list}`
(the `name` key is a required field of the pydantic `Category` model, so
it is modeled as always present). -/
def budgetDict (cats : List CategoryDict) : Dict :=
  cats.foldl (fun d c => dictInsert d c.name (c.budget.getD 0)) []

/-- `Expense.sum_expenses_by_category` (src/tracker/models.py lines
140-175): accumulate `spent_budget`, then emit its keys and values in
dict iteration order. -/
def Expense.sum_expenses_by_category (l : List ExpenseDict) :
    List String × List Rat :=
  ((spentDict l).map Prod.fst, (spentDict l).map Prod.snd)

/-- `Expense.calculate_remaining_budget_by_category`
(src/tracker/models.py lines 108-138): for each key of the `budget`
dict, `remaining_budget = value - spent_budget[key]` and
`percentage_spent = (100 - (spent_budget[key] / value) * 100) if value != 0 else 0`. -/
def Expense.calculate_remaining_budget_by_category
    (l : List ExpenseDict) (cats : List CategoryDict) : List BudgetEntry :=
  (budgetDict cats).map (fun (p : String × Rat) =>
    { name := p.1
      budget := p.2 - lookupD (spentDict l) p.1
      percentage_spent :=
        if p.2 = 0 then (0 : Rat) else 100 - lookupD (spentDict l) p.1 / p.2 * 100 })

/-- `Expense.sum_expenses` (src/tracker/models.py lines 200-212):
`sum(Decimal(expense['amount']) for expense in expense_list)`.  The
subscript raises `KeyError` when the field is absent, modeled by `none`. -/
def Expense.sum_expenses (l : List ExpenseDict) : Option Rat :=
  l.foldl (fun acc e => acc.bind (fun s => e.amount.map (fun a => s + a))) (some 0)

/-- Characterization used in the statements below: the exact decimal sum
of the amounts of the expenses grouped under key `k`. -/
def spentTotal : List ExpenseDict → String → Rat
  | [], _ => 0
  | e :: rest, k => (if expenseKey e = k then expenseAmt e else 0) + spentTotal rest k

/-- Characterization used in the statements below: first-seen
deduplication of a key sequence. -/
def seenKeys (ks : List String) : List String :=
  ks.foldl (fun acc k => if k ∈ acc then acc else acc ++ [k]) []

/-! ## Storage layer

One Mongo collection of per-user ledger documents with a unique index on
`username` (src/database.py).  A freshly registered document carries only
`username` and `password` (`RegisterUser.model_dump()`); the embedded
`expenses` / `categories` array fields appear only after the first
`$push`, hence the `Option`. -/

structure Expense where
  id : String
  description : String
  amount : String
  category_id : String
  category_name : String
  date : Option String
deriving DecidableEq

structure Category where
  id : String
  name : String
  budget : String
deriving DecidableEq

structure UserDoc where
  username : String
  password : String
  expenses : Option (List Expense)
  categories : Option (List Category)
deriving DecidableEq

/-- The `expenses` collection, in insertion order. -/
abbrev Store := List UserDoc

/-- `find_one(filter)`: the first document matching the filter. -/
def findDoc : Store → (UserDoc → Bool) → Option UserDoc
  | [], _ => none
  | d :: rest, p => if p d then some d else findDoc rest p

/-- `find_one({'username': username})`. -/
def findUser (s : Store) (u : String) : Option UserDoc :=
  findDoc s (fun d => d.username == u)

/-- `count_documents(filter)`. -/
def countDocs : Store → (UserDoc → Bool) → Nat
  | [], _ => 0
  | d :: rest, p => (if p d then 1 else 0) + countDocs rest p

/-- `update_one(filter, update)`: apply `f` to the first document
matching `p` and return the new store with `modified_count`, which is 1
only when the document actually changed (a `$set`/`$pull` that leaves
the document identical modifies nothing). -/
def updateFirst : Store → (UserDoc → Bool) → (UserDoc → UserDoc) → Store × Nat
  | [], _, _ => ([], 0)
  | d :: rest, p, f =>
      if p d then (f d :: rest, if f d = d then 0 else 1)
      else (d :: (updateFirst rest p f).1, (updateFirst rest p f).2)

/-- The unique index on `username` (src/database.py line 10). -/
abbrev usernamesNodup (s : Store) : Prop :=
  (s.map (fun d => d.username)).Nodup

/-- Reading the embedded `expenses` array of a document: a document
without the field matches no array condition. -/
def expensesOf (d : UserDoc) : List Expense :=
  d.expenses.getD []

/-- Reading the embedded `categories` array of a document. -/
def categoriesOf (d : UserDoc) : List Category :=
  d.categories.getD []

/-- Outcome of running a piece of Python code: a value, or an uncaught
exception (`AttributeError` on `None.get`, `TypeError` on `None[0]`). -/
inductive PyResult (α : Type) where
  | ok (a : α)
  | exn
deriving DecidableEq

/-- `utils.cursor_to_list` (src/utils.py lines 1-3):
`next(cursor, None).get(field, [])`.  An empty cursor yields `None` and
the `.get` call raises; a document without the field yields `[]`. -/
def cursor_to_list {γ : Type} (cursor : List UserDoc)
    (field : UserDoc → Option (List γ)) : PyResult (List γ) :=
  match cursor with
  | [] => .exn
  | d :: _ => .ok ((field d).getD [])

/-- Replace the first list element satisfying `p` (the Mongo positional
`$` operator selects the first array element matched by the filter). -/
def setFirst {α : Type} : List α → (α → Bool) → (α → α) → List α
  | [], _, _ => []
  | a :: rest, p, f => if p a then f a :: rest else a :: setFirst rest p f

/-- The `$set` of `Expense.update`: field-replace `description`,
`amount`, `category_id` and `category_name` of the positionally matched
element (the stored `date` is not touched). -/
def Expense.setFields (new e : Expense) : Expense :=
  { e with
    description := new.description
    amount := new.amount
    category_id := new.category_id
    category_name := new.category_name }

/-- The document transformation performed by `Expense.update`. -/
def Expense.updateDoc (new : Expense) (d : UserDoc) : UserDoc :=
  { d with
    expenses := d.expenses.map
      (fun l => setFirst l (fun e => e.id == new.id) (Expense.setFields new)) }

/-- `Expense.update(username)` (src/tracker/models.py lines 36-65):
`update_one({'username': u, 'expenses.id': self.id}, {'$set': ...})`,
returning `modified_count`. -/
def Expense.update (s : Store) (u : String) (new : Expense) : Store × Nat :=
  updateFirst s
    (fun d => d.username == u && (expensesOf d).any (fun e => e.id == new.id))
    (Expense.updateDoc new)

/-- The `$set` of `Category.update`: field-replace `name` and `budget`. -/
def Category.setFields (new c : Category) : Category :=
  { c with name := new.name, budget := new.budget }

/-- The document transformation performed by `Category.update`. -/
def Category.updateDoc (new : Category) (d : UserDoc) : UserDoc :=
  { d with
    categories := d.categories.map
      (fun l => setFirst l (fun c => c.id == new.id) (Category.setFields new)) }

/-- `Category.update(username)` (src/tracker/models.py lines 254-276). -/
def Category.update (s : Store) (u : String) (new : Category) : Store × Nat :=
  updateFirst s
    (fun d => d.username == u && (categoriesOf d).any (fun c => c.id == new.id))
    (Category.updateDoc new)

/-- `Expense.get_expense_from_user` (src/tracker/models.py lines 67-91):
`find_one({'username': u, 'expenses.id': expense_id}, {'expenses.$': 1, ...})`
followed by `result.get('expenses', None)[0]`.  When no document matches
(unknown user, absent `expenses` field, or no entry with the id) the
code dereferences `None` and raises instead of reporting "not found". -/
def Expense.get_expense_from_user (s : Store) (u eid : String) : PyResult Expense :=
  match findDoc s
      (fun d => d.username == u && (expensesOf d).any (fun e => e.id == eid)) with
  | none => .exn
  | some d =>
      match (expensesOf d).find? (fun e => e.id == eid) with
      | some e => .ok e
      | none => .exn

/-- `Category.get_category_from_user` (src/tracker/models.py lines
278-302), same shape as `Expense.get_expense_from_user`. -/
def Category.get_category_from_user (s : Store) (u cid : String) : PyResult Category :=
  match findDoc s
      (fun d => d.username == u && (categoriesOf d).any (fun c => c.id == cid)) with
  | none => .exn
  | some d =>
      match (categoriesOf d).find? (fun c => c.id == cid) with
      | some c => .ok c
      | none => .exn

/-- `Expense.get_all_expenses_from_user` (src/tracker/models.py lines
93-106): `find({'username': u}, ...)` then `cursor_to_list`. -/
def Expense.get_all_expenses_from_user (s : Store) (u : String) : PyResult (List Expense) :=
  cursor_to_list (s.filter (fun d => d.username == u)) (fun d => d.expenses)

/-- `Category.get_all_categories_from_user` (src/tracker/models.py
lines 304-317). -/
def Category.get_all_categories_from_user (s : Store) (u : String) : PyResult (List Category) :=
  cursor_to_list (s.filter (fun d => d.username == u)) (fun d => d.categories)

/-- `Expense.verify_expense_with_category` (src/tracker/models.py lines
214-233): true iff zero documents of the user contain an expense
referencing the category id. -/
def Expense.verify_expense_with_category (s : Store) (u cid : String) : Bool :=
  countDocs s
    (fun d => d.username == u && (expensesOf d).any (fun e => e.category_id == cid)) == 0

/-- `Category.delete_category` (src/tracker/models.py lines 340-360):
`update_one({'username': u}, {'$pull': {'categories': {'id': category_id}}})`;
`$pull` removes every matching array element, and is a no-op on a
document without the field. -/
def Category.delete_category (s : Store) (u cid : String) : Store × Nat :=
  updateFirst s (fun d => d.username == u)
    (fun d => { d with
      categories := d.categories.map (fun l => l.filter (fun c => !(c.id == cid))) })

/-- `User.validate_unique_username` (src/auth/models.py lines 66-77);
`limit=1` only caps the count and does not change the comparison with 0. -/
def User.validate_unique_username (s : Store) (u : String) : Bool :=
  countDocs s (fun d => d.username == u) == 0

/-- Flash outcome of the `delete_category` route. -/
inductive DeleteCategoryOutcome where
  | deleted
  | notFound
  | blockedByExpenses
deriving DecidableEq

/-- The `delete_category` route (src/tracker/routes.py lines 260-285):
guard with `verify_expense_with_category`, then `$pull` the category and
flash according to the modified count; a guarded-off deletion leaves the
store untouched. -/
def Routes.delete_category (s : Store) (u cid : String) :
    Store × DeleteCategoryOutcome :=
  if Expense.verify_expense_with_category s u cid then
    let r := Category.delete_category s u cid
    (r.1, if r.2 = 1 then .deleted else .notFound)
  else
    (s, .blockedByExpenses)

/-- Outcome of the `register` route. -/
inductive RegisterOutcome where
  | registered
  | duplicateUsername
deriving DecidableEq

/-- The `register` route (src/auth/routes.py lines 45-82) after form
validation: check `validate_unique_username`, then `RegisterUser.save`
inserts a document holding only `username` and `password`; on a
duplicate the store is left untouched and a duplicate message flashed. -/
def Routes.register (s : Store) (u passwordHash : String) :
    Store × RegisterOutcome :=
  if User.validate_unique_username s u then
    (s ++ [⟨u, passwordHash, none, none⟩], .registered)
  else
    (s, .duplicateUsername)

/-! ## Dictionary lemmas -/

theorem lookupD_dictAdd_self (d : Dict) (k : String) (v : Rat) :
    lookupD (dictAdd d k v) k = lookupD d k + v := by
  induction d with
  | nil => simp [dictAdd, lookupD]
  | cons a rest ih =>
      obtain ⟨k0, v0⟩ := a
      by_cases h : k0 = k <;> simp [dictAdd, lookupD, h, ih]

theorem lookupD_dictAdd_ne (d : Dict) (k k' : String) (v : Rat) (h : k ≠ k') :
    lookupD (dictAdd d k v) k' = lookupD d k' := by
  induction d with
  | nil => simp [dictAdd, lookupD, h]
  | cons a rest ih =>
      obtain ⟨k0, v0⟩ := a
      by_cases h0 : k0 = k
      · subst h0
        simp [dictAdd, lookupD, h]
      · simp [dictAdd, lookupD, h0, ih]

theorem keys_dictAdd (d : Dict) (k : String) (v : Rat) :
    (dictAdd d k v).map Prod.fst =
      if k ∈ d.map Prod.fst then d.map Prod.fst else d.map Prod.fst ++ [k] := by
  induction d with
  | nil => simp [dictAdd]
  | cons a rest ih =>
      obtain ⟨k0, v0⟩ := a
      by_cases h : k0 = k
      · subst h
        simp [dictAdd]
      · have h' : ¬ k = k0 := fun hh => h hh.symm
        by_cases hm : k ∈ rest.map Prod.fst <;>
          simp [dictAdd, h, h', hm, ih]

theorem nodup_keys_dictAdd (d : Dict) (k : String) (v : Rat)
    (h : (d.map Prod.fst).Nodup) : ((dictAdd d k v).map Prod.fst).Nodup := by
  rw [keys_dictAdd]
  by_cases hm : k ∈ d.map Prod.fst
  · simpa [hm] using h
  · rw [if_neg hm]
    simp [List.nodup_append, h, hm]

theorem sum_snd_dictAdd (d : Dict) (k : String) (v : Rat) :
    ((dictAdd d k v).map Prod.snd).sum = (d.map Prod.snd).sum + v := by
  induction d with
  | nil => simp [dictAdd]
  | cons a rest ih =>
      obtain ⟨k0, v0⟩ := a
      by_cases h : k0 = k <;> simp [dictAdd, h, ih] <;> ring

theorem mem_dictInsert (p : String × Rat) (d : Dict) (k : String) (v : Rat)
    (h : p ∈ dictInsert d k v) : p ∈ d ∨ p = (k, v) := by
  induction d with
  | nil => simpa [dictInsert] using h
  | cons a rest ih =>
      obtain ⟨k0, v0⟩ := a
      by_cases h0 : k0 = k
      · subst h0
        rcases List.mem_cons.mp (by simpa [dictInsert] using h) with h1 | h1
        · exact Or.inr h1
        · exact Or.inl (List.mem_cons_of_mem _ h1)
      · rcases List.mem_cons.mp (by simpa [dictInsert, h0] using h) with h1 | h1
        · exact Or.inl (h1 ▸ List.mem_cons_self _ _)
        · rcases ih h1 with h2 | h2
          · exact Or.inl (List.mem_cons_of_mem _ h2)
          · exact Or.inr h2

theorem dictInsert_of_not_mem (d : Dict) (k : String) (v : Rat)
    (h : k ∉ d.map Prod.fst) : dictInsert d k v = d ++ [(k, v)] := by
  induction d with
  | nil => simp [dictInsert]
  | cons a rest ih =>
      obtain ⟨k0, v0⟩ := a
      simp only [List.map_cons, List.mem_cons] at h
      push_neg at h
      have h1 : ¬ k0 = k := fun hh => h.1 hh.symm
      simp [dictInsert, h1, ih h.2]

/-! ## Lemmas on the accumulated spent and budget dictionaries -/

theorem lookupD_spentDict_go (l : List ExpenseDict) (d : Dict) (k : String) :
    lookupD (l.foldl (fun d e => dictAdd d (expenseKey e) (expenseAmt e)) d) k
      = lookupD d k + spentTotal l k := by
  induction l generalizing d with
  | nil => simp [spentTotal]
  | cons e rest ih =>
      rw [List.foldl_cons, ih]
      by_cases h : expenseKey e = k
      · rw [h, lookupD_dictAdd_self]
        simp [spentTotal, h, add_assoc]
      · rw [lookupD_dictAdd_ne _ _ _ _ h]
        simp [spentTotal, h]

theorem lookupD_spentDict (l : List ExpenseDict) (k : String) :
    lookupD (spentDict l) k = spentTotal l k := by
  simpa [spentDict, lookupD] using lookupD_spentDict_go l [] k

theorem keys_spentDict_go (l : List ExpenseDict) (d : Dict) :
    ((l.foldl (fun d e => dictAdd d (expenseKey e) (expenseAmt e)) d).map Prod.fst)
      = (l.map expenseKey).foldl
          (fun acc k => if k ∈ acc then acc else acc ++ [k]) (d.map Prod.fst) := by
  induction l generalizing d with
  | nil => simp
  | cons e rest ih =>
      rw [List.foldl_cons, ih, List.map_cons, List.foldl_cons, keys_dictAdd]

theorem keys_spentDict (l : List ExpenseDict) :
    (spentDict l).map Prod.fst = seenKeys (l.map expenseKey) := by
  simpa [spentDict, seenKeys] using keys_spentDict_go l []

theorem nodup_keys_spentDict_go (l : List ExpenseDict) (d : Dict)
    (h : (d.map Prod.fst).Nodup) :
    ((l.foldl (fun d e => dictAdd d (expenseKey e) (expenseAmt e)) d).map Prod.fst).Nodup := by
  induction l generalizing d with
  | nil => simpa using h
  | cons e rest ih => exact ih _ (nodup_keys_dictAdd _ _ _ h)

theorem nodup_keys_spentDict (l : List ExpenseDict) :
    ((spentDict l).map Prod.fst).Nodup :=
  nodup_keys_spentDict_go l [] (by simp)

theorem sum_snd_spentDict_go (l : List ExpenseDict) (d : Dict) :
    ((l.foldl (fun d e => dictAdd d (expenseKey e) (expenseAmt e)) d).map Prod.snd).sum
      = (d.map Prod.snd).sum + (l.map expenseAmt).sum := by
  induction l generalizing d with
  | nil => simp
  | cons e rest ih =>
      rw [List.foldl_cons, ih, sum_snd_dictAdd]
      simp [add_assoc]

theorem sum_snd_spentDict (l : List ExpenseDict) :
    ((spentDict l).map Prod.snd).sum = (l.map expenseAmt).sum := by
  simpa [spentDict] using sum_snd_spentDict_go l []

theorem map_snd_eq_map_lookupD (d : Dict) (h : (d.map Prod.fst).Nodup) :
    d.map Prod.snd = (d.map Prod.fst).map (lookupD d) := by
  induction d with
  | nil => simp
  | cons a rest ih =>
      obtain ⟨k0, v0⟩ := a
      have h1 : k0 ∉ rest.map Prod.fst := (List.nodup_cons.mp (by simpa using h)).1
      have h2 : (rest.map Prod.fst).Nodup := (List.nodup_cons.mp (by simpa using h)).2
      have tail : (rest.map Prod.fst).map (lookupD ((k0, v0) :: rest))
          = (rest.map Prod.fst).map (lookupD rest) := by
        apply List.map_congr_left
        intro k hk
        have hne : ¬ k0 = k := fun hh => h1 (hh ▸ hk)
        simp [lookupD, hne]
      simp only [List.map_cons, tail, ← ih h2]
      simp [lookupD]

theorem mem_budgetDict_go (cats : List CategoryDict) (d : Dict) (p : String × Rat)
    (h : p ∈ cats.foldl (fun d c => dictInsert d c.name (c.budget.getD 0)) d) :
    p ∈ d ∨ ∃ c ∈ cats, p = (c.name, c.budget.getD 0) := by
  induction cats generalizing d with
  | nil => exact Or.inl (by simpa using h)
  | cons c rest ih =>
      rw [List.foldl_cons] at h
      rcases ih _ h with h1 | ⟨c', hc', he⟩
      · rcases mem_dictInsert _ _ _ _ h1 with h2 | h2
        · exact Or.inl h2
        · exact Or.inr ⟨c, List.mem_cons_self _ _, h2⟩
      · exact Or.inr ⟨c', List.mem_cons_of_mem _ hc', he⟩

theorem mem_budgetDict (cats : List CategoryDict) (p : String × Rat)
    (h : p ∈ budgetDict cats) : ∃ c ∈ cats, p = (c.name, c.budget.getD 0) := by
  rcases mem_budgetDict_go cats [] p (by simpa [budgetDict] using h) with h1 | h1
  · simp at h1
  · exact h1

theorem budgetDict_go_eq (cats : List CategoryDict) (d : Dict)
    (hd : ∀ c ∈ cats, c.name ∉ d.map Prod.fst)
    (hnd : (cats.map CategoryDict.name).Nodup) :
    cats.foldl (fun d c => dictInsert d c.name (c.budget.getD 0)) d
      = d ++ cats.map (fun c => (c.name, c.budget.getD 0)) := by
  induction cats generalizing d with
  | nil => simp
  | cons c rest ih =>
      have hhead : c.name ∉ rest.map CategoryDict.name :=
        (List.nodup_cons.mp (by simpa using hnd)).1
      have htail : (rest.map CategoryDict.name).Nodup :=
        (List.nodup_cons.mp (by simpa using hnd)).2
      rw [List.foldl_cons, dictInsert_of_not_mem _ _ _ (hd c (List.mem_cons_self _ _)),
        ih _ ?_ htail]
      · simp
      · intro c' hc'
        simp only [List.map_append, List.mem_append, List.map_cons, List.map_nil]
        rintro (hmem | hmem)
        · exact hd c' (List.mem_cons_of_mem _ hc') hmem
        · have : c'.name = c.name := by simpa using hmem
          exact hhead (this ▸ List.mem_map_of_mem CategoryDict.name hc')

theorem budgetDict_eq (cats : List CategoryDict)
    (hnd : (cats.map CategoryDict.name).Nodup) :
    budgetDict cats = cats.map (fun c => (c.name, c.budget.getD 0)) := by
  simpa [budgetDict] using budgetDict_go_eq cats [] (by simp) hnd

theorem spentTotal_filter (l : List ExpenseDict) (q : ExpenseDict → Bool) (k : String)
    (h : ∀ e : ExpenseDict, expenseKey e = k → q e = true) :
    spentTotal (l.filter q) k = spentTotal l k := by
  induction l with
  | nil => simp
  | cons e rest ih =>
      by_cases hq : q e
      · simp [List.filter_cons, hq, spentTotal, ih]
      · have hk : ¬ expenseKey e = k := fun hh => by simp [h e hh] at hq
        simp [List.filter_cons, hq, spentTotal, hk, ih]

theorem sum_expenses_go (l : List ExpenseDict) (s : Rat)
    (h : ∀ e ∈ l, e.amount.isSome = true) :
    l.foldl (fun acc e => acc.bind (fun t => e.amount.map (fun a => t + a))) (some s)
      = some (s + (l.map expenseAmt).sum) := by
  induction l generalizing s with
  | nil => simp
  | cons e rest ih =>
      obtain ⟨a, ha⟩ := Option.isSome_iff_exists.mp (h e (List.mem_cons_self e rest))
      rw [List.foldl_cons,
        show ((some s).bind (fun t => e.amount.map (fun a => t + a))) = some (s + a) from
          by simp [ha],
        ih _ (fun e' he' => h e' (List.mem_cons_of_mem _ he'))]
      simp [expenseAmt, ha, add_assoc]

/-! ## Store lemmas -/

theorem findDoc_eq_some (s : Store) (p : UserDoc → Bool) (d : UserDoc)
    (h : findDoc s p = some d) : p d = true ∧ d ∈ s := by
  induction s with
  | nil => simp [findDoc] at h
  | cons d0 rest ih =>
      by_cases h0 : p d0
      · have hd : d0 = d := by simpa [findDoc, h0] using h
        exact ⟨hd ▸ h0, hd ▸ List.mem_cons_self _ _⟩
      · have h' : findDoc rest p = some d := by simpa [findDoc, h0] using h
        exact ⟨(ih h').1, List.mem_cons_of_mem _ (ih h').2⟩

theorem store_no_match (s : Store) (u : String) (q : UserDoc → Bool)
    (f : UserDoc → UserDoc)
    (h : u ∉ s.map (fun d => d.username))
    (hq : ∀ d, q d = true → d.username = u) :
    findDoc s q = none ∧ countDocs s q = 0 ∧ updateFirst s q f = (s, 0) := by
  induction s with
  | nil => simp [findDoc, countDocs, updateFirst]
  | cons d rest ih =>
      simp only [List.map_cons, List.mem_cons] at h
      push_neg at h
      have hd : q d = false := by
        cases hqd : q d
        · rfl
        · exact absurd (hq d hqd) (Ne.symm h.1)
      rcases ih h.2 with ⟨h1, h2, h3⟩
      refine ⟨?_, ?_, ?_⟩ <;>
        simp [findDoc, countDocs, updateFirst, hd, h1, h2, h3]

theorem findUser_eq_some (s : Store) (u : String) (doc : UserDoc)
    (h : findUser s u = some doc) : doc.username = u ∧ doc ∈ s := by
  have := findDoc_eq_some s _ doc h
  exact ⟨by simpa using this.1, this.2⟩

/-- Behavior of `find_one` / `count_documents` / `update_one` with a
filter that pins the username, given the unique index: everything is
decided by the unique document of the user. -/
theorem store_user_ops (s : Store) (u : String) (doc : UserDoc) (q : UserDoc → Bool)
    (f : UserDoc → UserDoc)
    (hnd : usernamesNodup s) (hfind : findUser s u = some doc)
    (hq : ∀ d, q d = true → d.username = u)
    (hf : ∀ d, (f d).username = d.username) :
    findDoc s q = (if q doc then some doc else none) ∧
    countDocs s q = (if q doc then 1 else 0) ∧
    (updateFirst s q f).2 = (if q doc = true ∧ f doc ≠ doc then 1 else 0) ∧
    findUser (updateFirst s q f).1 u = some (if q doc then f doc else doc) ∧
    (q doc = false → (updateFirst s q f).1 = s) := by
  induction s with
  | nil => simp [findUser, findDoc] at hfind
  | cons d rest ih =>
      have hnd' : usernamesNodup rest :=
        (List.nodup_cons.mp (by simpa [usernamesNodup] using hnd)).2
      have hhead : d.username ∉ rest.map (fun d => d.username) :=
        (List.nodup_cons.mp (by simpa [usernamesNodup] using hnd)).1
      by_cases hu : d.username = u
      · have hdoc : d = doc := by simpa [findUser, findDoc, hu] using hfind
        subst hdoc
        have hrest : u ∉ rest.map (fun d => d.username) := hu ▸ hhead
        rcases store_no_match rest u q f hrest hq with ⟨n1, n2, n3⟩
        by_cases hqd : q d
        · refine ⟨by simp [findDoc, hqd], by simp [countDocs, hqd, n2], ?_, ?_, ?_⟩
          · by_cases hfd : f d = d <;> simp [updateFirst, hqd, hfd]
          · simp [updateFirst, hqd, findUser, findDoc, hf d, hu]
          · intro hc; simp [hqd] at hc
        · refine ⟨by simp [findDoc, hqd, n1], by simp [countDocs, hqd, n2], ?_, ?_, ?_⟩
          · simp [updateFirst, hqd, n3]
          · simp [updateFirst, hqd, n3, findUser, findDoc, hu]
          · intro _; simp [updateFirst, hqd, n3]
      · have hq' : q d = false := by
          cases hqd : q d
          · rfl
          · exact absurd (hq d hqd) hu
        have hfind' : findUser rest u = some doc := by
          simpa [findUser, findDoc, hu] using hfind
        rcases ih hnd' hfind' with ⟨i1, i2, i3, i4, i5⟩
        refine ⟨by simp [findDoc, hq', i1], by simp [countDocs, hq', i2], ?_, ?_, ?_⟩
        · simp [updateFirst, hq', i3]
        · simpa [updateFirst, hq', findUser, findDoc, hu] using i4
        · intro hc; simp [updateFirst, hq', i5 hc]

theorem countDocs_ne_zero (s : Store) (q : UserDoc → Bool) (d : UserDoc)
    (hd : d ∈ s) (hq : q d = true) : countDocs s q ≠ 0 := by
  induction s with
  | nil => simp at hd
  | cons d0 rest ih =>
      rcases List.mem_cons.mp hd with h | h
      · subst h; simp [countDocs, hq]
      · have hrest := ih h
        by_cases h0 : q d0
        · simp [countDocs, h0]
        · simpa [countDocs, h0] using hrest

theorem filter_head?_eq_findDoc (s : Store) (p : UserDoc → Bool) :
    (s.filter p).head? = findDoc s p := by
  induction s with
  | nil => rfl
  | cons d rest ih =>
      by_cases h : p d <;> simp [List.filter_cons, findDoc, h, ih]

/-! ## Claim theorems: aggregation -/

/-- C1: every entry returned by `calculate_remaining_budget_by_category`
equals, for a category of the input list bearing that name, the
category's original budget minus the exact decimal sum of the amounts of
the expenses whose category name equals that name; equivalently,
remaining budget plus spent equals the original budget, exactly. -/
theorem claim1_remaining_budget_exact (l : List ExpenseDict)
    (cats : List CategoryDict) (entry : BudgetEntry)
    (hmem : entry ∈ Expense.calculate_remaining_budget_by_category l cats) :
    ∃ c ∈ cats, entry.name = c.name ∧
      entry.budget = c.budget.getD 0 - spentTotal l c.name ∧
      entry.budget + spentTotal l c.name = c.budget.getD 0 := by
  rcases List.mem_map.mp hmem with ⟨p, hp, he⟩
  rcases mem_budgetDict cats p hp with ⟨c, hc, hpc⟩
  subst hpc
  refine ⟨c, hc, ?_, ?_, ?_⟩
  · rw [← he]
  · rw [← he]
    simp [lookupD_spentDict]
  · rw [← he]
    simp [lookupD_spentDict]

/-- Witness for C1 at the example of the spec: budget 100, one expense
of 30 in the category, remaining 70. -/
theorem claim1_witness :
    (⟨"Food", 70, 70⟩ : BudgetEntry) ∈
        Expense.calculate_remaining_budget_by_category
          [⟨some "Food", some 30⟩] [⟨"Food", some 100⟩] ∧
    ∃ c ∈ [(⟨"Food", some 100⟩ : CategoryDict)],
      (⟨"Food", 70, 70⟩ : BudgetEntry).name = c.name ∧
      (⟨"Food", 70, 70⟩ : BudgetEntry).budget
        = c.budget.getD 0 - spentTotal [⟨some "Food", some 30⟩] c.name ∧
      (⟨"Food", 70, 70⟩ : BudgetEntry).budget
        + spentTotal [⟨some "Food", some 30⟩] c.name = c.budget.getD 0 := by
  have hmem : (⟨"Food", 70, 70⟩ : BudgetEntry) ∈
      Expense.calculate_remaining_budget_by_category
        [⟨some "Food", some 30⟩] [⟨"Food", some 100⟩] := by
    norm_num [Expense.calculate_remaining_budget_by_category, budgetDict,
      dictInsert, spentDict, dictAdd, expenseKey, expenseAmt, lookupD]
  exact ⟨hmem, claim1_remaining_budget_exact _ _ _ hmem⟩

/-- C2: when every expense carries an `amount` field, the sum of the
per-category totals of `sum_expenses_by_category` equals
`sum_expenses` on the same list. -/
theorem claim2_category_totals_preserve_sum (l : List ExpenseDict)
    (h : ∀ e ∈ l, e.amount.isSome = true) :
    Expense.sum_expenses l = some ((Expense.sum_expenses_by_category l).2.sum) := by
  rw [Expense.sum_expenses, sum_expenses_go l 0 h]
  simp [Expense.sum_expenses_by_category, sum_snd_spentDict]

/-- Witness for C2 on a two-expense list spanning two categories. -/
theorem claim2_witness :
    Expense.sum_expenses [⟨some "Food", some 30⟩, ⟨none, some 12⟩]
      = some ((Expense.sum_expenses_by_category
          [⟨some "Food", some 30⟩, ⟨none, some 12⟩]).2.sum) :=
  claim2_category_totals_preserve_sum _ (by decide)

/-- C3 as stated is false: for a category with spent greater than its
(nonzero) budget, the stored `percentage_spent` is negative, and in
particular does not exceed 100%.  Concretely: budget 100, spent 150,
`percentage_spent` is −50. -/
theorem claim3_counterexample :
    (Expense.calculate_remaining_budget_by_category
        [⟨some "A", some 150⟩] [⟨"A", some 100⟩]).map BudgetEntry.percentage_spent
      = [(-50 : Rat)] ∧
    spentTotal [⟨some "A", some 150⟩] "A" = 150 ∧
    ¬ (100 : Rat) < (-50 : Rat) := by
  refine ⟨?_, ?_, by norm_num⟩
  · norm_num [Expense.calculate_remaining_budget_by_category, budgetDict,
      dictInsert, spentDict, dictAdd, expenseKey, expenseAmt, lookupD]
  · norm_num [spentTotal, expenseKey, expenseAmt]

/-- C3 amended: `percentage_spent` is 0 when the category budget is 0;
for a nonzero budget it equals `100 − (spent/budget)×100`; and for
spent greater than a positive budget it is well-defined and negative
(the spent fraction exceeds 100%, so the stored value drops below 0%,
rather than exceeding 100%). -/
theorem claim3_percentage_spent (l : List ExpenseDict)
    (cats : List CategoryDict) (entry : BudgetEntry)
    (hmem : entry ∈ Expense.calculate_remaining_budget_by_category l cats) :
    ∃ c ∈ cats, entry.name = c.name ∧
      (c.budget.getD 0 = 0 → entry.percentage_spent = 0) ∧
      (c.budget.getD 0 ≠ 0 →
        entry.percentage_spent
          = 100 - spentTotal l c.name / c.budget.getD 0 * 100) ∧
      (0 < c.budget.getD 0 ∧ c.budget.getD 0 < spentTotal l c.name →
        entry.percentage_spent < 0) := by
  rcases List.mem_map.mp hmem with ⟨p, hp, he⟩
  rcases mem_budgetDict cats p hp with ⟨c, hc, hpc⟩
  subst hpc
  refine ⟨c, hc, by rw [← he], ?_, ?_, ?_⟩
  · intro h0
    rw [← he]
    simp [h0]
  · intro h0
    rw [← he]
    simp [h0, lookupD_spentDict]
  · rintro ⟨hb, hs⟩
    rw [← he]
    have hb' : ¬ c.budget.getD 0 = 0 := ne_of_gt hb
    simp only [hb', if_false, lookupD_spentDict]
    have h1 : (1 : Rat) < spentTotal l c.name / c.budget.getD 0 :=
      (one_lt_div hb).mpr hs
    nlinarith

/-- Witness for C3 at the spec example: budget 100, spent 30,
percentage 70. -/
theorem claim3_witness :
    (⟨"Food", 70, 70⟩ : BudgetEntry) ∈
        Expense.calculate_remaining_budget_by_category
          [⟨some "Food", some 30⟩] [⟨"Food", some 100⟩] ∧
    ∃ c ∈ [(⟨"Food", some 100⟩ : CategoryDict)],
      (⟨"Food", 70, 70⟩ : BudgetEntry).name = c.name ∧
      (c.budget.getD 0 = 0 → (⟨"Food", 70, 70⟩ : BudgetEntry).percentage_spent = 0) ∧
      (c.budget.getD 0 ≠ 0 →
        (⟨"Food", 70, 70⟩ : BudgetEntry).percentage_spent
          = 100 - spentTotal [⟨some "Food", some 30⟩] c.name / c.budget.getD 0 * 100) ∧
      (0 < c.budget.getD 0 ∧
          c.budget.getD 0 < spentTotal [⟨some "Food", some 30⟩] c.name →
        (⟨"Food", 70, 70⟩ : BudgetEntry).percentage_spent < 0) := by
  have hmem : (⟨"Food", 70, 70⟩ : BudgetEntry) ∈
      Expense.calculate_remaining_budget_by_category
        [⟨some "Food", some 30⟩] [⟨"Food", some 100⟩] := by
    norm_num [Expense.calculate_remaining_budget_by_category, budgetDict,
      dictInsert, spentDict, dictAdd, expenseKey, expenseAmt, lookupD]
  exact ⟨hmem, claim3_percentage_spent _ _ _ hmem⟩

/-- C7: `sum_expenses_by_category` groups the amounts by category name,
with an expense lacking the name bucketed under "Undefined category";
the returned names are the input names in first-seen order, each paired
with the exact sum of the amounts grouped under it. -/
theorem claim7_sum_by_category_grouping (l : List ExpenseDict) :
    (Expense.sum_expenses_by_category l).1 = seenKeys (l.map expenseKey) ∧
    (Expense.sum_expenses_by_category l).2
      = (seenKeys (l.map expenseKey)).map (spentTotal l) ∧
    ∀ e : ExpenseDict, e.category_name = none →
      expenseKey e = "Undefined category" := by
  refine ⟨keys_spentDict l, ?_, ?_⟩
  · have h1 := map_snd_eq_map_lookupD (spentDict l) (nodup_keys_spentDict l)
    have h2 : lookupD (spentDict l) = spentTotal l :=
      funext (fun k => lookupD_spentDict l k)
    calc (Expense.sum_expenses_by_category l).2
        = (spentDict l).map Prod.snd := rfl
      _ = ((spentDict l).map Prod.fst).map (lookupD (spentDict l)) := h1
      _ = (seenKeys (l.map expenseKey)).map (spentTotal l) := by
          rw [keys_spentDict, h2]
  · intro e he
    simp [expenseKey, he]

/-- Witness for C7: a nameless expense lands under the sentinel label. -/
theorem claim7_witness :
    Expense.sum_expenses_by_category [⟨none, some 5⟩]
        = (["Undefined category"], [5]) ∧
    expenseKey ⟨none, some 5⟩ = "Undefined category" :=
  ⟨by norm_num [Expense.sum_expenses_by_category, spentDict, dictAdd,
      expenseKey, expenseAmt],
    (claim7_sum_by_category_grouping [⟨none, some 5⟩]).2.2 ⟨none, some 5⟩ rfl⟩

/-- C9 as stated is false when two categories share a name: the Python
dict comprehension collapses them, so the output has one entry for the
two categories instead of one entry each. -/
theorem claim9_counterexample :
    (Expense.calculate_remaining_budget_by_category []
        [⟨"A", some 1⟩, ⟨"A", some 2⟩]).length = 1 ∧
    ([(⟨"A", some 1⟩ : CategoryDict), ⟨"A", some 2⟩]).length = 2 := by
  refine ⟨?_, rfl⟩
  norm_num [Expense.calculate_remaining_budget_by_category, budgetDict,
    dictInsert, spentDict, dictAdd, expenseKey, expenseAmt, lookupD]

/-- C9 amended: provided the category names are pairwise distinct (the
per-user uniqueness invariant of the data model), the output has exactly
one entry per category, in the order of the category list, regardless of
the expenses; and expenses whose category name matches no category
contribute to no entry — filtering them away leaves the output
unchanged. -/
theorem claim9_entries_mirror_categories (l : List ExpenseDict)
    (cats : List CategoryDict)
    (hnd : (cats.map CategoryDict.name).Nodup) :
    (Expense.calculate_remaining_budget_by_category l cats).map BudgetEntry.name
        = cats.map CategoryDict.name ∧
    Expense.calculate_remaining_budget_by_category l cats
      = Expense.calculate_remaining_budget_by_category
          (l.filter (fun e => cats.any (fun c => c.name == expenseKey e))) cats := by
  constructor
  · rw [Expense.calculate_remaining_budget_by_category, budgetDict_eq cats hnd,
      List.map_map, List.map_map]
    rfl
  · rw [Expense.calculate_remaining_budget_by_category,
      Expense.calculate_remaining_budget_by_category]
    apply List.map_congr_left
    intro p hp
    rcases mem_budgetDict cats p hp with ⟨c, hc, hpc⟩
    subst hpc
    have hfl : spentTotal
        (l.filter (fun e => cats.any (fun c => c.name == expenseKey e))) c.name
          = spentTotal l c.name := by
      apply spentTotal_filter
      intro e he
      simp only [List.any_eq_true]
      exact ⟨c, hc, by simp [he]⟩
    simp [lookupD_spentDict, hfl]

/-- Witness for C9: one category, one matching and one unmatched
expense. -/
theorem claim9_witness :
    (Expense.calculate_remaining_budget_by_category
        [⟨some "Food", some 30⟩, ⟨some "Travel", some 5⟩]
        [⟨"Food", some 100⟩]).map BudgetEntry.name
      = ([⟨"Food", some 100⟩] : List CategoryDict).map CategoryDict.name ∧
    Expense.calculate_remaining_budget_by_category
        [⟨some "Food", some 30⟩, ⟨some "Travel", some 5⟩] [⟨"Food", some 100⟩]
      = Expense.calculate_remaining_budget_by_category
          (([⟨some "Food", some 30⟩, ⟨some "Travel", some 5⟩] : List ExpenseDict).filter
            (fun e => ([⟨"Food", some 100⟩] : List CategoryDict).any
              (fun c => c.name == expenseKey e)))
          [⟨"Food", some 100⟩] :=
  claim9_entries_mirror_categories _ _ (by simp)

/-! ## Claim theorems: persistence and routes -/

/-- C4: the category-delete route removes the category entries with the
given id exactly when zero of the user's expenses reference that
category id; with one or more referencing expenses the deletion is
rejected, the store (hence the category list) is unchanged, and the
blocking flash is shown. -/
theorem claim4_delete_category_guard (s : Store) (u cid : String) (doc : UserDoc)
    (hnd : usernamesNodup s) (hfind : findUser s u = some doc) :
    ((∀ e ∈ expensesOf doc, e.category_id ≠ cid) →
        findUser (Routes.delete_category s u cid).1 u =
          some { doc with
            categories := doc.categories.map
              (fun l => l.filter (fun c => !(c.id == cid))) }) ∧
    ((∃ e ∈ expensesOf doc, e.category_id = cid) →
        Routes.delete_category s u cid = (s, DeleteCategoryOutcome.blockedByExpenses)) := by
  have hu : doc.username = u := (findUser_eq_some s u doc hfind).1
  have hq : ∀ d : UserDoc,
      (d.username == u && (expensesOf d).any (fun e => e.category_id == cid)) = true →
      d.username = u := by
    intro d hd
    rw [Bool.and_eq_true] at hd
    simpa using hd.1
  have hcount := (store_user_ops s u doc
    (fun d => d.username == u && (expensesOf d).any (fun e => e.category_id == cid))
    id hnd hfind hq (fun _ => rfl)).2.1
  have hq2 : ∀ d : UserDoc, (d.username == u) = true → d.username = u := by
    intro d hd
    simpa using hd
  constructor
  · intro h1
    have hany : (expensesOf doc).any (fun e => e.category_id == cid) = false := by
      rw [List.any_eq_false]
      intro e he
      simpa using h1 e he
    have hqdoc : (doc.username == u &&
        (expensesOf doc).any (fun e => e.category_id == cid)) = false := by
      simp [hany]
    have hverify : Expense.verify_expense_with_category s u cid = true := by
      rw [Expense.verify_expense_with_category, hcount, hqdoc]
      rfl
    have hops := (store_user_ops s u doc (fun d => d.username == u)
      (fun d => { d with
        categories := d.categories.map (fun l => l.filter (fun c => !(c.id == cid))) })
      hnd hfind hq2 (fun _ => rfl)).2.2.2.1
    rw [show (doc.username == u) = true by simp [hu]] at hops
    simp only [if_true] at hops
    simpa [Routes.delete_category, hverify, Category.delete_category] using hops
  · intro h2
    have hany : (expensesOf doc).any (fun e => e.category_id == cid) = true := by
      rw [List.any_eq_true]
      rcases h2 with ⟨e, he, hec⟩
      exact ⟨e, he, by simp [hec]⟩
    have hqdoc : (doc.username == u &&
        (expensesOf doc).any (fun e => e.category_id == cid)) = true := by
      simp [hany, hu]
    have hverify : Expense.verify_expense_with_category s u cid = false := by
      rw [Expense.verify_expense_with_category, hcount, hqdoc]
      rfl
    simp [Routes.delete_category, hverify]

/-- Witness for C4: a user with one expense on category `c1` and one
category `c2`; deleting `c2` is allowed and removes it. -/
theorem claim4_witness :
    ((∀ e ∈ expensesOf ⟨"u", "pw", some [⟨"e1", "d", "5", "c1", "Food", none⟩],
          some [⟨"c2", "Fun", "50"⟩]⟩, e.category_id ≠ "c2") →
        findUser (Routes.delete_category
            [⟨"u", "pw", some [⟨"e1", "d", "5", "c1", "Food", none⟩],
              some [⟨"c2", "Fun", "50"⟩]⟩] "u" "c2").1 "u" =
          some { (⟨"u", "pw", some [⟨"e1", "d", "5", "c1", "Food", none⟩],
              some [⟨"c2", "Fun", "50"⟩]⟩ : UserDoc) with
            categories := (⟨"u", "pw", some [⟨"e1", "d", "5", "c1", "Food", none⟩],
              some [⟨"c2", "Fun", "50"⟩]⟩ : UserDoc).categories.map
                (fun l => l.filter (fun c => !(c.id == "c2"))) }) ∧
    ((∃ e ∈ expensesOf ⟨"u", "pw", some [⟨"e1", "d", "5", "c1", "Food", none⟩],
          some [⟨"c2", "Fun", "50"⟩]⟩, e.category_id = "c2") →
        Routes.delete_category
            [⟨"u", "pw", some [⟨"e1", "d", "5", "c1", "Food", none⟩],
              some [⟨"c2", "Fun", "50"⟩]⟩] "u" "c2" =
          ([⟨"u", "pw", some [⟨"e1", "d", "5", "c1", "Food", none⟩],
              some [⟨"c2", "Fun", "50"⟩]⟩],
            DeleteCategoryOutcome.blockedByExpenses)) :=
  claim4_delete_category_guard _ _ _ _ (by decide) (by decide)

/-- C5: when the user's ledger document exists but lacks the embedded
list field, `get_expense_from_user` / `get_category_from_user` end in an
uncaught Python exception rather than an explicit not-found result. -/
theorem claim5_get_one_fails_without_list (s : Store) (u xid cid : String)
    (doc : UserDoc) (hnd : usernamesNodup s) (hfind : findUser s u = some doc)
    (hexp : doc.expenses = none) (hcat : doc.categories = none) :
    Expense.get_expense_from_user s u xid = PyResult.exn ∧
    Category.get_category_from_user s u cid = PyResult.exn := by
  constructor
  · have hq : ∀ d : UserDoc,
        (d.username == u && (expensesOf d).any (fun e => e.id == xid)) = true →
        d.username = u := by
      intro d hd
      rw [Bool.and_eq_true] at hd
      simpa using hd.1
    have h1 := (store_user_ops s u doc
      (fun d => d.username == u && (expensesOf d).any (fun e => e.id == xid))
      id hnd hfind hq (fun _ => rfl)).1
    have hqdoc : (doc.username == u &&
        (expensesOf doc).any (fun e => e.id == xid)) = false := by
      simp [expensesOf, hexp]
    rw [Expense.get_expense_from_user, h1, hqdoc]
    simp
  · have hq : ∀ d : UserDoc,
        (d.username == u && (categoriesOf d).any (fun c => c.id == cid)) = true →
        d.username = u := by
      intro d hd
      rw [Bool.and_eq_true] at hd
      simpa using hd.1
    have h1 := (store_user_ops s u doc
      (fun d => d.username == u && (categoriesOf d).any (fun c => c.id == cid))
      id hnd hfind hq (fun _ => rfl)).1
    have hqdoc : (doc.username == u &&
        (categoriesOf doc).any (fun c => c.id == cid)) = false := by
      simp [categoriesOf, hcat]
    rw [Category.get_category_from_user, h1, hqdoc]
    simp

/-- Witness for C5: a freshly registered user, whose document has
neither embedded list. -/
theorem claim5_witness :
    Expense.get_expense_from_user [⟨"bob", "pw", none, none⟩] "bob" "x1"
        = PyResult.exn ∧
    Category.get_category_from_user [⟨"bob", "pw", none, none⟩] "bob" "c1"
        = PyResult.exn :=
  claim5_get_one_fails_without_list _ _ _ _ ⟨"bob", "pw", none, none⟩
    (by decide) (by decide) rfl rfl

/-- `modified_count` of `update_one` never exceeds 1 (at most one
document is touched). -/
theorem updateFirst_count_le_one (s : Store) (p : UserDoc → Bool)
    (f : UserDoc → UserDoc) : (updateFirst s p f).2 ≤ 1 := by
  induction s with
  | nil => simp [updateFirst]
  | cons d rest ih =>
      by_cases h : p d
      · rw [updateFirst, if_pos h]
        split <;> omega
      · simpa [updateFirst, h] using ih

/-- For a username-scoped filter, `modified_count` is zero exactly when
the extra filter rejects the user's document or the update leaves it
unchanged. -/
theorem updateFirst_user_count_zero_iff (s : Store) (u : String) (doc : UserDoc)
    (p : UserDoc → Bool) (f : UserDoc → UserDoc)
    (hnd : usernamesNodup s) (hfind : findUser s u = some doc)
    (hf : ∀ d, (f d).username = d.username) :
    ((updateFirst s (fun d => d.username == u && p d) f).2 = 0 ↔
      p doc = false ∨ f doc = doc) := by
  have hq : ∀ d : UserDoc, (d.username == u && p d) = true → d.username = u := by
    intro d hd
    rw [Bool.and_eq_true] at hd
    simpa using hd.1
  have hu : doc.username = u := (findUser_eq_some s u doc hfind).1
  have hops := (store_user_ops s u doc (fun d => d.username == u && p d) f
    hnd hfind hq hf).2.2.1
  rw [hops]
  by_cases hcond : ((doc.username == u && p doc) = true ∧ f doc ≠ doc)
  · rw [if_pos hcond]
    simp only [one_ne_zero, false_iff]
    intro hor
    rcases hor with hp | hfix
    · rw [Bool.and_eq_true] at hcond
      exact absurd hcond.1.2 (by simp [hp])
    · exact hcond.2 hfix
  · rw [if_neg hcond]
    refine ⟨fun _ => ?_, fun _ => rfl⟩
    rw [not_and_or] at hcond
    rcases hcond with hp | hfx
    · left
      cases hpd : p doc
      · rfl
      · exact absurd (by rw [Bool.and_eq_true]; exact ⟨by simp [hu], hpd⟩) hp
    · right
      exact not_not.mp hfx

/-- C6 as stated is false: a no-op update (setting an existing expense
to its current field values) matches an entry with the id yet reports a
modified-count of 0, because the document store counts only documents
actually changed. -/
theorem claim6_counterexample :
    (Expense.update
        [⟨"u", "pw", some [⟨"e1", "coffee", "5", "c1", "Food", none⟩], none⟩]
        "u" ⟨"e1", "coffee", "5", "c1", "Food", none⟩).2 = 0 ∧
    (expensesOf ⟨"u", "pw", some [⟨"e1", "coffee", "5", "c1", "Food", none⟩], none⟩).any
        (fun e => e.id == "e1") = true := by
  decide

/-- C6 amended: the modified-count of an expense or category update is
0 or 1, and it is 0 exactly when the user's embedded list contains no
entry with the updated id **or** the positional field-set leaves the
document unchanged (a no-op update); a caller treating 0 as "not found"
misreads the no-op case. -/
theorem claim6_update_modified_count (s : Store) (u : String) (doc : UserDoc)
    (ex : Expense) (ct : Category)
    (hnd : usernamesNodup s) (hfind : findUser s u = some doc) :
    (Expense.update s u ex).2 ≤ 1 ∧
    ((Expense.update s u ex).2 = 0 ↔
      (∀ e ∈ expensesOf doc, e.id ≠ ex.id) ∨ Expense.updateDoc ex doc = doc) ∧
    (Category.update s u ct).2 ≤ 1 ∧
    ((Category.update s u ct).2 = 0 ↔
      (∀ c ∈ categoriesOf doc, c.id ≠ ct.id) ∨ Category.updateDoc ct doc = doc) := by
  refine ⟨updateFirst_count_le_one _ _ _, ?_, updateFirst_count_le_one _ _ _, ?_⟩
  · rw [Expense.update, updateFirst_user_count_zero_iff s u doc
      (fun d => (expensesOf d).any (fun e => e.id == ex.id))
      (Expense.updateDoc ex) hnd hfind (fun _ => rfl)]
    have : ((expensesOf doc).any (fun e => e.id == ex.id) = false) ↔
        (∀ e ∈ expensesOf doc, e.id ≠ ex.id) := by
      rw [List.any_eq_false]
      constructor
      · intro h e he heq
        exact h e he (by simp [heq])
      · intro h e he heq
        exact h e he (by simpa using heq)
    rw [this]
  · rw [Category.update, updateFirst_user_count_zero_iff s u doc
      (fun d => (categoriesOf d).any (fun c => c.id == ct.id))
      (Category.updateDoc ct) hnd hfind (fun _ => rfl)]
    have : ((categoriesOf doc).any (fun c => c.id == ct.id) = false) ↔
        (∀ c ∈ categoriesOf doc, c.id ≠ ct.id) := by
      rw [List.any_eq_false]
      constructor
      · intro h c hc heq
        exact h c hc (by simp [heq])
      · intro h c hc heq
        exact h c hc (by simpa using heq)
    rw [this]

/-- Witness for C6: an effective expense update and a category update
whose id matches nothing. -/
theorem claim6_witness :
    (Expense.update [⟨"u", "pw", some [⟨"e1", "old", "5", "c1", "Food", none⟩], none⟩]
        "u" ⟨"e1", "new", "7", "c2", "Fun", none⟩).2 ≤ 1 ∧
    ((Expense.update [⟨"u", "pw", some [⟨"e1", "old", "5", "c1", "Food", none⟩], none⟩]
        "u" ⟨"e1", "new", "7", "c2", "Fun", none⟩).2 = 0 ↔
      (∀ e ∈ expensesOf ⟨"u", "pw", some [⟨"e1", "old", "5", "c1", "Food", none⟩], none⟩,
          e.id ≠ (⟨"e1", "new", "7", "c2", "Fun", none⟩ : Expense).id) ∨
        Expense.updateDoc ⟨"e1", "new", "7", "c2", "Fun", none⟩
            ⟨"u", "pw", some [⟨"e1", "old", "5", "c1", "Food", none⟩], none⟩ =
          ⟨"u", "pw", some [⟨"e1", "old", "5", "c1", "Food", none⟩], none⟩) ∧
    (Category.update [⟨"u", "pw", some [⟨"e1", "old", "5", "c1", "Food", none⟩], none⟩]
        "u" ⟨"c9", "X", "1"⟩).2 ≤ 1 ∧
    ((Category.update [⟨"u", "pw", some [⟨"e1", "old", "5", "c1", "Food", none⟩], none⟩]
        "u" ⟨"c9", "X", "1"⟩).2 = 0 ↔
      (∀ c ∈ categoriesOf ⟨"u", "pw", some [⟨"e1", "old", "5", "c1", "Food", none⟩], none⟩,
          c.id ≠ (⟨"c9", "X", "1"⟩ : Category).id) ∨
        Category.updateDoc ⟨"c9", "X", "1"⟩
            ⟨"u", "pw", some [⟨"e1", "old", "5", "c1", "Food", none⟩], none⟩ =
          ⟨"u", "pw", some [⟨"e1", "old", "5", "c1", "Food", none⟩], none⟩) :=
  claim6_update_modified_count _ _ _ _ _ (by decide) (by decide)

/-- C8: a registration attempt with an already-present username is
rejected with the duplicate-username outcome and leaves the store
unchanged (no second record inserted). -/
theorem claim8_duplicate_username_rejected (s : Store) (u pwh : String)
    (h : ∃ d ∈ s, d.username = u) :
    Routes.register s u pwh = (s, RegisterOutcome.duplicateUsername) := by
  rcases h with ⟨d, hd, hdu⟩
  have hc : countDocs s (fun d => d.username == u) ≠ 0 :=
    countDocs_ne_zero s _ d hd (by simp [hdu])
  have hv : User.validate_unique_username s u = false := by
    rw [User.validate_unique_username]
    simpa using hc
  simp [Routes.register, hv]

/-- Witness for C8: registering "alice" a second time. -/
theorem claim8_witness :
    Routes.register [⟨"alice", "h1", none, none⟩] "alice" "h2"
      = ([⟨"alice", "h1", none, none⟩], RegisterOutcome.duplicateUsername) :=
  claim8_duplicate_username_rejected _ _ _ ⟨⟨"alice", "h1", none, none⟩, by simp, rfl⟩

/-- C10: when the user's ledger document exists but lacks the embedded
field, `get_all_expenses_from_user` / `get_all_categories_from_user`
return the empty list (the `.get(field, [])` default), not a failure. -/
theorem claim10_get_all_empty_when_field_absent (s : Store) (u : String)
    (doc : UserDoc) (hfind : findUser s u = some doc)
    (hexp : doc.expenses = none) (hcat : doc.categories = none) :
    Expense.get_all_expenses_from_user s u = PyResult.ok [] ∧
    Category.get_all_categories_from_user s u = PyResult.ok [] := by
  have hh : (s.filter (fun d => d.username == u)).head? = some doc := by
    rw [filter_head?_eq_findDoc]
    exact hfind
  obtain ⟨t, ht⟩ : ∃ t, s.filter (fun d => d.username == u) = doc :: t := by
    cases hc : s.filter (fun d => d.username == u) with
    | nil => rw [hc] at hh; simp at hh
    | cons a t =>
        rw [hc] at hh
        simp only [List.head?_cons, Option.some_inj] at hh
        exact ⟨t, by rw [hh]⟩
  constructor <;>
    simp [Expense.get_all_expenses_from_user, Category.get_all_categories_from_user,
      cursor_to_list, ht, hexp, hcat]

/-- Witness for C10: the same freshly registered user as in the C5
witness, on the list-returning operations. -/
theorem claim10_witness :
    Expense.get_all_expenses_from_user [⟨"bob", "pw", none, none⟩] "bob"
        = PyResult.ok [] ∧
    Category.get_all_categories_from_user [⟨"bob", "pw", none, none⟩] "bob"
        = PyResult.ok [] :=
  claim10_get_all_empty_when_field_absent _ _ ⟨"bob", "pw", none, none⟩
    (by decide) rfl rfl

end ExpenseTracker
